import Mathlib

/-!
A verification development for the GCN certificate-comparison pipeline.

The Python modules `gcn_validator.py`, `processor.py`, `processed_cache.py`
and the statistics blocks of `app.py` / `main.py` are embedded shallowly:
strings become `List Char` / `String`, the regular expressions become
explicit scanners over character lists, the per-file pipeline becomes a
pure function over an explicit environment describing the external
collaborators (page extraction, the recognition service, cache faults),
and the SQLite-backed cache becomes a list of records with
replace-on-write semantics.
-/

set_option maxHeartbeats 1000000

namespace CompareGCN

/-! ### Character classes of the regular expressions

`isLet` models `[A-Za-z]`, `isUpp` models `[A-Z]`, `isDig` models `\d`
(restricted to ASCII digits), `pySpace` models `\s` (ASCII whitespace),
`isAlnum` models `[A-Za-z0-9]`, and `pyUpper` models `str.upper` on a
single character (ASCII case mapping). -/

def isLet (c : Char) : Bool :=
  decide (65 ≤ c.toNat ∧ c.toNat ≤ 90) || decide (97 ≤ c.toNat ∧ c.toNat ≤ 122)

def isUpp (c : Char) : Bool :=
  decide (65 ≤ c.toNat ∧ c.toNat ≤ 90)

def isDig (c : Char) : Bool :=
  decide (48 ≤ c.toNat ∧ c.toNat ≤ 57)

def pySpace (c : Char) : Bool :=
  decide (c.toNat = 32) || decide (c.toNat = 9) || decide (c.toNat = 10) ||
  decide (c.toNat = 13) || decide (c.toNat = 12) || decide (c.toNat = 11)

def isAlnum (c : Char) : Bool := isLet c || isDig c

def pyUpper (c : Char) : Char :=
  if 97 ≤ c.toNat ∧ c.toNat ≤ 122 then Char.ofNat (c.toNat - 32) else c

theorem toNat_ofNat_valid (n : Nat) (h : n.isValidChar) :
    (Char.ofNat n).toNat = n := by
  simp [Char.ofNat, h, Char.toNat, Char.ofNatAux, UInt32.toNat, UInt32.ofNat]

theorem pyUpper_toNat_of_lower {c : Char} (h : 97 ≤ c.toNat ∧ c.toNat ≤ 122) :
    (pyUpper c).toNat = c.toNat - 32 := by
  have hv : (c.toNat - 32).isValidChar := by
    constructor
    omega
  simp [pyUpper, h, toNat_ofNat_valid _ hv]

theorem pyUpper_of_not_lower {c : Char} (h : ¬ (97 ≤ c.toNat ∧ c.toNat ≤ 122)) :
    pyUpper c = c := by
  simp [pyUpper, h]

theorem pyUpper_idem (c : Char) : pyUpper (pyUpper c) = pyUpper c := by
  by_cases h : 97 ≤ c.toNat ∧ c.toNat ≤ 122
  · have ht := pyUpper_toNat_of_lower h
    have : ¬ (97 ≤ (pyUpper c).toNat ∧ (pyUpper c).toNat ≤ 122) := by omega
    exact pyUpper_of_not_lower this
  · rw [pyUpper_of_not_lower h, pyUpper_of_not_lower h]

theorem isUpp_pyUpper_of_isLet {c : Char} (h : isLet c = true) :
    isUpp (pyUpper c) = true := by
  rcases (by simpa [isLet] using h : (65 ≤ c.toNat ∧ c.toNat ≤ 90) ∨
      (97 ≤ c.toNat ∧ c.toNat ≤ 122)) with h1 | h1
  · rw [pyUpper_of_not_lower (by omega)]
    simp [isUpp]
    omega
  · have := pyUpper_toNat_of_lower h1
    simp [isUpp]
    omega

theorem pyUpper_of_isDig {c : Char} (h : isDig c = true) : pyUpper c = c := by
  have h1 : 48 ≤ c.toNat ∧ c.toNat ≤ 57 := by simpa [isDig] using h
  exact pyUpper_of_not_lower (by omega)

theorem pyUpper_of_isUpp {c : Char} (h : isUpp c = true) : pyUpper c = c := by
  have h1 : 65 ≤ c.toNat ∧ c.toNat ≤ 90 := by simpa [isUpp] using h
  exact pyUpper_of_not_lower (by omega)

theorem isAlnum_of_isUpp {c : Char} (h : isUpp c = true) : isAlnum c = true := by
  have h1 : 65 ≤ c.toNat ∧ c.toNat ≤ 90 := by simpa [isUpp] using h
  simp [isAlnum, isLet]
  omega

theorem isAlnum_of_isDig {c : Char} (h : isDig c = true) : isAlnum c = true := by
  simp [isAlnum, h]

theorem isAlnum_pyUpper_of_isAlnum {c : Char} (h : isAlnum c = true) :
    isAlnum (pyUpper c) = true := by
  rcases (by simpa [isAlnum] using h : isLet c = true ∨ isDig c = true) with h1 | h1
  · exact isAlnum_of_isUpp (isUpp_pyUpper_of_isLet h1)
  · rw [pyUpper_of_isDig h1]
    exact isAlnum_of_isDig h1

theorem not_isUpp_of_isDig {c : Char} (h : isDig c = true) : isUpp c = false := by
  have h1 : 48 ≤ c.toNat ∧ c.toNat ≤ 57 := by simpa [isDig] using h
  simp [isUpp]
  omega

/-! ### `normalize_gcn_number` (gcn_validator.py, lines 5-41)

The Python function first removes every character outside `[A-Za-z0-9]`
and uppercases the remainder, then matches the cleaned string against
`^([A-Z]+)(\d+)$`.  On the cleaned, uppercased string that regex matches
exactly when the maximal uppercase-letter prefix is nonempty and the rest
is a nonempty run of digits. -/

/-- Prefix-truncation rule of `normalize_gcn_number`: letter prefixes of
length at least 4 keep their last 2 characters, length-3 prefixes keep
their last character, shorter prefixes stay unchanged. -/
def truncLetters (letters : List Char) : List Char :=
  if letters.length ≥ 4 then letters.drop (letters.length - 2)
  else if letters.length = 3 then letters.drop 2
  else letters

/-- The cleaning phase of `normalize_gcn_number`:
`re.sub(r'[^A-Za-z0-9]', '', s).upper()`. -/
def cleanUp (l : List Char) : List Char :=
  (l.filter isAlnum).map pyUpper

/-- The match-and-format phase of `normalize_gcn_number`, applied to the
cleaned string: `re.match(r'^([A-Z]+)(\d+)$', cleaned)` succeeds exactly
when the maximal `[A-Z]` prefix is nonempty and the remainder is a
nonempty run of digits. -/
def canonOf (cleaned : List Char) : List Char :=
  let letters := cleaned.takeWhile isUpp
  let ds := cleaned.dropWhile isUpp
  if letters ≠ [] ∧ ds ≠ [] ∧ ds.all isDig then
    truncLetters letters ++ ' ' :: ds
  else cleaned

/-- `normalize_gcn_number` on character lists. -/
def normalizeCore (l : List Char) : List Char :=
  canonOf (cleanUp l)

/-- `normalize_gcn_number` (gcn_validator.py). -/
def normalize_gcn_number (s : String) : String :=
  ⟨normalizeCore s.data⟩

/-- `compare_gcn` (gcn_validator.py, lines 114-128): normalize both sides
and return the Match marker exactly when the canonical strings agree. -/
def compare_gcn (filename_gcn predicted_gcn : String) : String :=
  if normalize_gcn_number filename_gcn = normalize_gcn_number predicted_gcn
  then "Đúng" else "Cần hiệu đính"

/-! ### `validate_filename_format` (gcn_validator.py, lines 44-86)

The main pattern is `^([A-Z]{1,2})\s*(\d+)-GCN\.pdf$`.  Since the
whitespace class, the digit class and the literal tail start with
pairwise-distinct characters, the greedy scan never backtracks inside
`\s*` or `\d+`; the only choice point is taking two leading letters
versus one, expressed below as a disjunction. -/

/-- Does the list end with the given suffix (Python `str.endswith`)? -/
def endsWithL (cs suf : List Char) : Bool := List.isSuffixOf suf cs

/-- Tail of the main validation pattern after the leading letters:
`\s*(\d+)-GCN\.pdf$`. -/
def mainTail (rest : List Char) : Bool :=
  let r1 := rest.dropWhile pySpace
  let ds := r1.takeWhile isDig
  decide (ds ≠ []) && decide (r1.dropWhile isDig = "-GCN.pdf".data)

/-- The anchored main pattern `^([A-Z]{1,2})\s*(\d+)-GCN\.pdf$`. -/
def mainPattern (cs : List Char) : Bool :=
  match cs with
  | a :: b :: rest => (isUpp a && isUpp b && mainTail rest) || (isUpp a && mainTail (b :: rest))
  | [a] => isUpp a && mainTail []
  | [] => false

/-- The diagnostic scan `re.match(r'^([a-zA-Z]{1,2})', filename)`:
one or two leading letters of either case, longest first. -/
def pfxMatch (cs : List Char) : Option (List Char) :=
  match cs with
  | a :: b :: _ =>
      if isLet a then (if isLet b then some [a, b] else some [a]) else none
  | [a] => if isLet a then some [a] else none
  | [] => none

/-- `validate_filename_format` (gcn_validator.py): the pair
`(ok, diagnostic)`, with the diagnostics produced in the fixed source
order. -/
def validate_filename_format (filename : String) : Bool × String :=
  let cs := filename.data
  if mainPattern cs then (true, "")
  else if ¬ endsWithL cs ".pdf".data then (false, "Không phải file PDF")
  else if ¬ endsWithL cs "-GCN.pdf".data then (false, "Không kết thúc bằng -GCN.pdf")
  else
    match pfxMatch cs with
    | none => (false, "Không có chữ cái đầu tiên")
    | some p =>
        if ¬ p.all isUpp then
          (false, "Chữ cái phải viết HOA (hiện tại: \x27" ++ (⟨p⟩ : String) ++ "\x27)")
        else if ¬ cs.any isDig then (false, "Thiếu phần số")
        else (false, "Sai format tên file")

/-! ### `extract_gcn_from_filename` (gcn_validator.py, lines 89-111)

Primary pattern: `re.search(r'([A-Z]{1,2}\s*\d+)-GCN', name, re.IGNORECASE)`;
fallback pattern: `re.search(r'_([A-Z]{1,2}\s*\d+)-', name, re.IGNORECASE)`.
`re.search` returns the leftmost match, modelled by scanning start
positions left to right. -/

/-- Case-insensitive literal-prefix test (the pattern literal is given
uppercased). -/
def ciStartsWith (cs pat : List Char) : Bool :=
  decide ((cs.take pat.length).map pyUpper = pat)

/-- After the group letters: `\s*\d+` followed by the terminator literal;
returns the characters the group captures past the letters. -/
def gcnTail (rest : List Char) (term : List Char) : Option (List Char) :=
  let ws := rest.takeWhile pySpace
  let r1 := rest.dropWhile pySpace
  let ds := r1.takeWhile isDig
  if decide (ds ≠ []) && ciStartsWith (r1.dropWhile isDig) term then
    some (ws ++ ds)
  else none

/-- One attempt of the primary pattern at the current position:
`([A-Za-z]{1,2}\s*\d+)-GCN`, two letters tried before one. -/
def matchPrimaryAt (cs : List Char) : Option (List Char) :=
  match cs with
  | a :: b :: rest =>
      if isLet a && isLet b then
        match gcnTail rest "-GCN".data with
        | some g => some (a :: b :: g)
        | none =>
            if isLet a then (gcnTail (b :: rest) "-GCN".data).map (a :: ·) else none
      else if isLet a then (gcnTail (b :: rest) "-GCN".data).map (a :: ·)
      else none
  | [a] =>
      if isLet a then (gcnTail [] "-GCN".data).map (a :: ·) else none
  | [] => none

/-- Leftmost search for the primary pattern. -/
def searchPrimary : List Char → Option (List Char)
  | [] => none
  | c :: cs =>
      match matchPrimaryAt (c :: cs) with
      | some g => some g
      | none => searchPrimary cs

/-- One attempt of the fallback pattern at the current position:
`_([A-Za-z]{1,2}\s*\d+)-`; the group excludes the underscore. -/
def matchFallbackAt (cs : List Char) : Option (List Char) :=
  match cs with
  | u :: rest =>
      if decide (u = '_') then
        match rest with
        | a :: b :: r2 =>
            if isLet a && isLet b then
              match gcnTail r2 "-".data with
              | some g => some (a :: b :: g)
              | none =>
                  if isLet a then (gcnTail (b :: r2) "-".data).map (a :: ·) else none
            else if isLet a then (gcnTail (b :: r2) "-".data).map (a :: ·)
            else none
        | [a] => if isLet a then (gcnTail [] "-".data).map (a :: ·) else none
        | [] => none
      else none
  | [] => none

/-- Leftmost search for the fallback pattern. -/
def searchFallback : List Char → Option (List Char)
  | [] => none
  | c :: cs =>
      match matchFallbackAt (c :: cs) with
      | some g => some g
      | none => searchFallback cs

/-- `extract_gcn_from_filename` (gcn_validator.py). -/
def extract_gcn_from_filename (filename : String) : String :=
  match searchPrimary filename.data with
  | some g => normalize_gcn_number ⟨g⟩
  | none =>
      match searchFallback filename.data with
      | some g => normalize_gcn_number ⟨g⟩
      | none => "UNKNOWN"

/-! ### The cache (processed_cache.py)

The SQLite table `processed_files` keyed by `file_hash` becomes a list of
records; `REPLACE INTO` deletes any row with the same key and inserts the
new one. -/

/-- One row of the `processed_files` table. -/
structure CacheRecord where
  file_hash : String
  file_path : String
  file_name : String
  processed_at : String
  status : String
  comparison : String
  filename_gcn : String
  predicted_gcn : String
  error : Option String
  deriving Repr, DecidableEq

/-- The `processed_files` table. -/
def Cache := List CacheRecord

instance : DecidableEq Cache := by
  unfold Cache
  infer_instance

/-- `ProcessedCache.is_processed` / `get_processed_result`: lookup by
fingerprint. -/
def Cache.lookup (c : Cache) (h : String) : Option CacheRecord :=
  List.find? (fun r => r.file_hash = h) c

/-- `ProcessedCache.add_processed`: `REPLACE INTO` semantics — the row
with the conflicting key is removed, the new row inserted. -/
def Cache.add_processed (c : Cache) (rec : CacheRecord) : Cache :=
  List.filter (fun r => r.file_hash ≠ rec.file_hash) c ++ [rec]

/-- `ProcessedCache.remove_processed`: delete by fingerprint. -/
def Cache.remove_processed (c : Cache) (h : String) : Cache :=
  List.filter (fun r => r.file_hash ≠ h) c

/-- `ProcessedCache.clear_cache`. -/
def Cache.clear (_ : Cache) : Cache := []

/-- The administrative operations on the cache table. -/
inductive CacheOp where
  | add (rec : CacheRecord)
  | remove (h : String)
  | clear
  deriving Repr

def Cache.applyOp (c : Cache) : CacheOp → Cache
  | .add rec => c.add_processed rec
  | .remove h => c.remove_processed h
  | .clear => c.clear

def Cache.applyOps (c : Cache) (ops : List CacheOp) : Cache :=
  ops.foldl Cache.applyOp c

/-! ### The per-file pipeline (processor.py, lines 17-134)

`process_single_pdf` is embedded as a pure function over an explicit
environment describing the external collaborators of one call:

* `lookupFault` — an exception raised by `cache.is_processed` /
  `cache.get_processed_result` (these run before the `try` block);
* `img` — the outcome of `extract_page2_to_base64`: an exception, or an
  optional base64 payload (`none` and the empty string are both falsy);
* `llm` — the outcome of `extract_gcn_with_llm`: an exception, or the
  pair `(predicted_raw, llm_error)`;
* `writeFault` — an exception raised by `cache.add_processed` (it runs
  in the `finally` block);
* `elapsed` — the measured wall-clock duration of the call;
* `now` — `datetime.now().isoformat()` at cache-write time.

A `.error` outcome of the whole function models a Python exception
escaping `process_single_pdf`. -/

structure PdfEnv where
  lookupFault : Option String
  img : Except String (Option String)
  llm : Except String (String × Option String)
  writeFault : Option String
  elapsed : Nat
  now : String

/-- A file task: the file name, the full path string, and the cache
fingerprint `md5(absolute path + size)` kept opaque. -/
structure Task where
  name : String
  path : String
  fingerprint : String
  deriving Repr, DecidableEq

/-- The result dict built by `process_single_pdf`.  `processed_at` is
present only on cache-hit results, as in the source. -/
structure PResult where
  index : Nat
  pdf_file : String
  pdf_path : String
  filename_gcn : String
  predicted_gcn : String
  comparison : String
  status : String
  error : Option String
  time : Nat
  from_cache : Bool
  processed_at : Option String
  deriving Repr, DecidableEq

/-- External calls performed during one `process_single_pdf` run. -/
structure Calls where
  pageExtractions : Nat
  llmCalls : Nat
  cacheWrites : Nat
  deriving Repr, DecidableEq

/-- Python renders `None` as the string `"None"` inside an f-string. -/
def optStr : Option String → String
  | none => "None"
  | some s => s

/-- The `try` block of `process_single_pdf` (lines 72-125) together with
the `except` clause: filename validation, filename extraction, page
extraction, the recognition call, normalization and comparison, with any
exception of the two external stages converted to a `status = "error"`
result.  Returns the result before the `finally` block, plus the
external-call counts. -/
def tryBody (t : Task) (index : Nat) (env : PdfEnv) : PResult × Calls :=
  let base : PResult :=
    { index := index, pdf_file := t.name, pdf_path := t.path,
      filename_gcn := "", predicted_gcn := "", comparison := "",
      status := "pending", error := none, time := 0, from_cache := false,
      processed_at := none }
  match validate_filename_format t.name with
  | (false, error_msg) =>
      ({ base with status := "skip", error := some ("Sai tên file: " ++ error_msg),
                   comparison := "N/A" }, ⟨0, 0, 0⟩)
  | (true, _) =>
      let filename_gcn := extract_gcn_from_filename t.name
      let base := { base with filename_gcn := filename_gcn }
      match env.img with
      | .error e => ({ base with status := "error", error := some e, comparison := "N/A" }, ⟨1, 0, 0⟩)
      | .ok img_b64 =>
          if img_b64 = none ∨ img_b64 = some "" then
            ({ base with status := "skip", error := some "No page 2", comparison := "N/A" }, ⟨1, 0, 0⟩)
          else
            match env.llm with
            | .error e =>
                ({ base with status := "error", error := some e, comparison := "N/A" }, ⟨1, 1, 0⟩)
            | .ok (predicted_gcn_raw, llm_error) =>
                let predicted_gcn :=
                  if predicted_gcn_raw ≠ "ERROR" then normalize_gcn_number predicted_gcn_raw
                  else predicted_gcn_raw
                let base := { base with predicted_gcn := predicted_gcn }
                if predicted_gcn ≠ "ERROR" ∧ filename_gcn ≠ "UNKNOWN" then
                  ({ base with comparison := compare_gcn filename_gcn predicted_gcn,
                               status := "success" }, ⟨1, 1, 0⟩)
                else
                  let msg :=
                    if predicted_gcn = "ERROR" ∧ filename_gcn = "UNKNOWN" then
                      "Both LLM and filename failed. LLM: " ++ optStr llm_error
                    else if predicted_gcn = "ERROR" then
                      "LLM extraction failed: " ++ optStr llm_error ++
                        ". Filename GCN: " ++ filename_gcn
                    else if filename_gcn = "UNKNOWN" then
                      "Cannot parse GCN from filename. LLM predicted: " ++ predicted_gcn
                    else "Cannot extract GCN number"
                  ({ base with comparison := "N/A", status := "error",
                               error := some msg }, ⟨1, 1, 0⟩)

/-- The record `add_processed` stores for a result (processed_cache.py,
lines 143-158). -/
def recordOf (t : Task) (r : PResult) (now : String) : CacheRecord :=
  { file_hash := t.fingerprint, file_path := t.path, file_name := t.name,
    processed_at := now, status := r.status, comparison := r.comparison,
    filename_gcn := r.filename_gcn, predicted_gcn := r.predicted_gcn,
    error := r.error }

/-- The cache-hit result of `process_single_pdf` (lines 44-56): the
stored record's fields verbatim, status `"cached"`, elapsed time 0,
`from_cache` true, `processed_at` copied from the record. -/
def hitResult (t : Task) (index : Nat) (rec : CacheRecord) : PResult :=
  { index := index, pdf_file := t.name, pdf_path := t.path,
    filename_gcn := rec.filename_gcn, predicted_gcn := rec.predicted_gcn,
    comparison := rec.comparison, status := "cached", error := rec.error,
    time := 0, from_cache := true, processed_at := some rec.processed_at }

/-- The fresh result: the `try` block's result with the elapsed time
stamped in the `finally` block (line 128). -/
def freshResult (t : Task) (index : Nat) (env : PdfEnv) : PResult :=
  { (tryBody t index env).1 with time := env.elapsed }

/-- The fresh path of `process_single_pdf`: run the guarded block, stamp
the time, and in the `finally` block write the record back when a cache
is present and the terminal status is `success`, `skip` or `error`.  An
exception of `cache.add_processed` is raised inside `finally`, hence
escapes. -/
def freshOutcome (t : Task) (index : Nat) (env : PdfEnv) (cache : Option Cache) :
    Except String (PResult × Option Cache × Calls) :=
  let r := freshResult t index env
  let calls := (tryBody t index env).2
  if cache.isSome ∧ (r.status = "success" ∨ r.status = "skip" ∨ r.status = "error") then
    match env.writeFault with
    | some e => throw e
    | none =>
        pure (r, some ((cache.getD []).add_processed (recordOf t r env.now)),
              { calls with cacheWrites := 1 })
  else pure (r, cache, calls)

/-- `process_single_pdf` (processor.py).  The cache-hit branch returns
before the `try`/`finally`; exceptions of the cache lookup (which runs
before the `try` block) and of the cache write (which runs in the
`finally` block) are NOT intercepted and escape the function. -/
def process_single_pdf (t : Task) (index : Nat) (env : PdfEnv)
    (cache : Option Cache) (skip_processed : Bool) :
    Except String (PResult × Option Cache × Calls) :=
  match cache with
  | some c =>
      if skip_processed then
        match env.lookupFault with
        | some e => throw e
        | none =>
            match c.lookup t.fingerprint with
            | some rec => pure (hitResult t index rec, some c, ⟨0, 0, 0⟩)
            | none => freshOutcome t index env (some c)
      else freshOutcome t index env (some c)
  | none => freshOutcome t index env none

/-! ### The batch orchestrator (processor.py, lines 137-190)

`process_batch_pdfs` submits task `idx` with sequence index `idx + 1`,
consumes completions in whatever order they arrive, appends each
delivered result (a future whose `.result()` raises is only logged, so
it contributes nothing to the list), and finally sorts by `index`.
Concurrency is modelled by quantifying over the arrival order: the
arrival list is an arbitrary permutation of the per-task outcomes. -/

/-- One submitted task together with the external world it will see and
the cache state at the moment it runs. -/
structure BatchItem where
  task : Task
  env : PdfEnv
  cache : Option Cache

/-- The outcomes of the futures submitted for the items, the first one
carrying sequence index `k`. -/
def batchOutcomesFrom (k : Nat) (items : List BatchItem) (skip_processed : Bool) :
    List (Except String PResult) :=
  match items with
  | [] => []
  | it :: rest =>
      (process_single_pdf it.task k it.env it.cache skip_processed).map (·.1) ::
        batchOutcomesFrom (k + 1) rest skip_processed

/-- The outcome of every submitted future, in submission order; task
`idx` (0-based) is submitted with sequence index `idx + 1`
(processor.py, line 163). -/
def batchOutcomes (items : List BatchItem) (skip_processed : Bool) :
    List (Except String PResult) :=
  batchOutcomesFrom 1 items skip_processed

/-- The fan-in loop over `as_completed`: delivered results are appended,
a future that raises is only logged (processor.py, lines 167-186). -/
def gatherResults (arrived : List (Except String PResult)) : List PResult :=
  arrived.filterMap Except.toOption

/-- `results.sort(key=lambda x: x["index"])` (processor.py, line 189). -/
def sortByIndex (rs : List PResult) : List PResult :=
  rs.mergeSort fun a b => a.index ≤ b.index

/-- `process_batch_pdfs` applied to an arrival order of the submitted
futures. -/
def process_batch_pdfs (arrived : List (Except String PResult)) : List PResult :=
  sortByIndex (gatherResults arrived)

/-! ### Aggregate statistics (main.py, lines 478-501; app.py, lines 297-315)

`success` counts results whose status is `"success"`, `correct` counts
results whose comparison is the Match marker over the WHOLE list, and the
accuracy percentage `correct / success * 100` is printed only when
`success > 0`. -/

def successCount (rs : List PResult) : Nat :=
  (rs.filter fun r => r.status = "success").length

def cachedCount (rs : List PResult) : Nat :=
  (rs.filter fun r => r.status = "cached").length

def correctCount (rs : List PResult) : Nat :=
  (rs.filter fun r => r.comparison = "Đúng").length

/-- The reported accuracy percentage, absent when no result has status
`"success"`. -/
def accuracy (rs : List PResult) : Option ℚ :=
  if 0 < successCount rs then
    some ((correctCount rs : ℚ) / (successCount rs : ℚ) * 100)
  else none

/-- Modelled from the spec (the claim's formula, for comparison with the
code): Match verdicts among results with status success or cached,
divided by the number of results with status success or cached; absent
when that denominator is zero. -/
def specAccuracy (rs : List PResult) : Option ℚ :=
  let sc := (rs.filter fun r => r.status = "success" ∨ r.status = "cached").length
  let m := (rs.filter fun r =>
    (r.status = "success" ∨ r.status = "cached") ∧ r.comparison = "Đúng").length
  if 0 < sc then some ((m : ℚ) / (sc : ℚ)) else none

/-- Match verdicts among results with status success or cached (the
specification's accuracy numerator). -/
def matchAmongDone (rs : List PResult) : Nat :=
  (rs.filter fun r =>
    (r.status = "success" ∨ r.status = "cached") ∧ r.comparison = "Đúng").length

/-! ## Lemmas about the normalizer -/

theorem takeWhile_append_cons {α : Type} {p : α → Bool} {L : List α} {d : α}
    {ds : List α} (hL : ∀ a ∈ L, p a = true) (hd : p d = false) :
    (L ++ d :: ds).takeWhile p = L := by
  induction L with
  | nil => simp [List.takeWhile_cons, hd]
  | cons a L ih =>
      have ha := hL a (List.mem_cons_self a L)
      simp only [List.cons_append, List.takeWhile_cons, ha, if_true]
      rw [ih fun x hx => hL x (List.mem_cons_of_mem a hx)]

theorem dropWhile_append_cons {α : Type} {p : α → Bool} {L : List α} {d : α}
    {ds : List α} (hL : ∀ a ∈ L, p a = true) (hd : p d = false) :
    (L ++ d :: ds).dropWhile p = d :: ds := by
  induction L with
  | nil => simp [List.dropWhile_cons, hd]
  | cons a L ih =>
      have ha := hL a (List.mem_cons_self a L)
      simp only [List.cons_append, List.dropWhile_cons, ha, if_true]
      exact ih fun x hx => hL x (List.mem_cons_of_mem a hx)

theorem cleanUp_append (a b : List Char) :
    cleanUp (a ++ b) = cleanUp a ++ cleanUp b := by
  simp [cleanUp, List.filter_append, List.map_append]

theorem mem_cleanUp_alnum {x : Char} {l : List Char} (h : x ∈ cleanUp l) :
    isAlnum x = true := by
  rcases List.mem_map.mp h with ⟨c, hc, rfl⟩
  exact isAlnum_pyUpper_of_isAlnum (List.mem_filter.mp hc).2

theorem cleanUp_idem (l : List Char) : cleanUp (cleanUp l) = cleanUp l := by
  show ((cleanUp l).filter isAlnum).map pyUpper = cleanUp l
  rw [List.filter_eq_self.mpr fun a ha => mem_cleanUp_alnum ha]
  show ((l.filter isAlnum).map pyUpper).map pyUpper = _
  rw [List.map_map]
  exact List.map_congr_left fun a _ => pyUpper_idem a

theorem cleanUp_of_all_isUpp {T : List Char} (h : ∀ c ∈ T, isUpp c = true) :
    cleanUp T = T := by
  show (T.filter isAlnum).map pyUpper = T
  rw [List.filter_eq_self.mpr fun a ha => isAlnum_of_isUpp (h a ha)]
  exact (List.map_congr_left fun a ha => pyUpper_of_isUpp (h a ha)).trans (List.map_id T)

theorem cleanUp_of_all_isDig {T : List Char} (h : ∀ c ∈ T, isDig c = true) :
    cleanUp T = T := by
  show (T.filter isAlnum).map pyUpper = T
  rw [List.filter_eq_self.mpr fun a ha => isAlnum_of_isDig (h a ha)]
  exact (List.map_congr_left fun a ha => pyUpper_of_isDig (h a ha)).trans (List.map_id T)

theorem cleanUp_space_cons (D : List Char) : cleanUp (' ' :: D) = cleanUp D := by
  have h : isAlnum ' ' = false := by decide
  simp [cleanUp, List.filter_cons, h]

theorem mem_of_truncLetters {L : List Char} {c : Char} (h : c ∈ truncLetters L) :
    c ∈ L := by
  unfold truncLetters at h
  split at h
  · exact List.mem_of_mem_drop h
  · split at h
    · exact List.mem_of_mem_drop h
    · exact h

theorem truncLetters_length_le (L : List Char) : (truncLetters L).length ≤ 2 := by
  unfold truncLetters
  split
  · rw [List.length_drop]
    omega
  · split
    · rw [List.length_drop]
      omega
    · omega

theorem truncLetters_ne_nil {L : List Char} (h : L ≠ []) : truncLetters L ≠ [] := by
  have hlen : 0 < L.length := List.length_pos.mpr h
  unfold truncLetters
  split
  · rw [← List.length_pos, List.length_drop]
    omega
  · split
    · rw [← List.length_pos, List.length_drop]
      omega
    · exact h

theorem truncLetters_of_le_two {L : List Char} (h : L.length ≤ 2) :
    truncLetters L = L := by
  unfold truncLetters
  rw [if_neg (by omega), if_neg (by omega)]

theorem truncLetters_idem (L : List Char) :
    truncLetters (truncLetters L) = truncLetters L :=
  truncLetters_of_le_two (truncLetters_length_le L)

theorem canonOf_decomp {L D : List Char} (hL : L ≠ []) (hD : D ≠ [])
    (hLu : ∀ c ∈ L, isUpp c = true) (hDd : ∀ c ∈ D, isDig c = true) :
    canonOf (L ++ D) = truncLetters L ++ ' ' :: D := by
  obtain ⟨d, ds, rfl⟩ := List.exists_cons_of_ne_nil hD
  have hd : isUpp d = false := not_isUpp_of_isDig (hDd d (List.mem_cons_self d ds))
  have ht : (L ++ d :: ds).takeWhile isUpp = L := takeWhile_append_cons hLu hd
  have hdp : (L ++ d :: ds).dropWhile isUpp = d :: ds := dropWhile_append_cons hLu hd
  show (if _ ∧ _ ∧ _ then _ else _) = _
  rw [ht, hdp, if_pos ⟨hL, by simp, List.all_eq_true.mpr hDd⟩]

theorem canonOf_eq_self_of_no_decomp {cleaned : List Char}
    (h : ¬ ∃ L D, cleaned = L ++ D ∧ L ≠ [] ∧ D ≠ [] ∧
      (∀ c ∈ L, isUpp c = true) ∧ (∀ c ∈ D, isDig c = true)) :
    canonOf cleaned = cleaned := by
  by_cases hc : cleaned.takeWhile isUpp ≠ [] ∧ cleaned.dropWhile isUpp ≠ [] ∧
      (cleaned.dropWhile isUpp).all isDig = true
  · exact absurd ⟨cleaned.takeWhile isUpp, cleaned.dropWhile isUpp,
      (List.takeWhile_append_dropWhile isUpp cleaned).symm, hc.1, hc.2.1,
      fun c hcm => List.mem_takeWhile_imp hcm,
      List.all_eq_true.mp hc.2.2⟩ h
  · show (if _ ∧ _ ∧ _ then _ else _) = _
    rw [if_neg hc]

theorem normalizeCore_idem (l : List Char) :
    normalizeCore (normalizeCore l) = normalizeCore l := by
  unfold normalizeCore
  by_cases hc : (cleanUp l).takeWhile isUpp ≠ [] ∧ (cleanUp l).dropWhile isUpp ≠ [] ∧
      ((cleanUp l).dropWhile isUpp).all isDig = true
  · have hcanon : canonOf (cleanUp l) =
        truncLetters ((cleanUp l).takeWhile isUpp) ++ ' ' :: (cleanUp l).dropWhile isUpp := by
      unfold canonOf
      rw [if_pos hc]
    have hLu : ∀ c ∈ (cleanUp l).takeWhile isUpp, isUpp c = true :=
      fun c hcm => List.mem_takeWhile_imp hcm
    have hTu : ∀ c ∈ truncLetters ((cleanUp l).takeWhile isUpp), isUpp c = true :=
      fun c hcm => hLu c (mem_of_truncLetters hcm)
    have hDd : ∀ c ∈ (cleanUp l).dropWhile isUpp, isDig c = true :=
      List.all_eq_true.mp hc.2.2
    have h1 : cleanUp (truncLetters ((cleanUp l).takeWhile isUpp) ++
        ' ' :: (cleanUp l).dropWhile isUpp) =
        truncLetters ((cleanUp l).takeWhile isUpp) ++ (cleanUp l).dropWhile isUpp := by
      rw [cleanUp_append, cleanUp_space_cons, cleanUp_of_all_isUpp hTu,
        cleanUp_of_all_isDig hDd]
    rw [hcanon, h1, canonOf_decomp (truncLetters_ne_nil hc.1) hc.2.1 hTu hDd,
      truncLetters_idem]
  · have hcanon : canonOf (cleanUp l) = cleanUp l := by
      unfold canonOf
      rw [if_neg hc]
    rw [hcanon, cleanUp_idem]
    exact hcanon

/-! ## C3 and C4 -/

/-- C3: `normalize_gcn_number` strips non-alphanumeric characters,
uppercases, and when the cleaned string decomposes as nonempty letters
followed by nonempty digits it returns the truncated letter prefix, a
single space, and the digit suffix verbatim (prefix of length at least 4
keeps its last 2 letters, length 3 keeps its last letter, length 1-2 is
unchanged, per `truncLetters`); when no such decomposition exists the
cleaned string is returned unchanged; the four table entries of the
specification evaluate as stated. -/
theorem normalize_gcn_shape :
    (∀ (s : String) (L D : List Char), cleanUp s.data = L ++ D → L ≠ [] → D ≠ [] →
      (∀ c ∈ L, isUpp c = true) → (∀ c ∈ D, isDig c = true) →
      normalize_gcn_number s = ⟨truncLetters L ++ ' ' :: D⟩) ∧
    (∀ s : String,
      (¬ ∃ L D, cleanUp s.data = L ++ D ∧ L ≠ [] ∧ D ≠ [] ∧
        (∀ c ∈ L, isUpp c = true) ∧ (∀ c ∈ D, isDig c = true)) →
      normalize_gcn_number s = ⟨cleanUp s.data⟩) ∧
    normalize_gcn_number "SOAH1234567" = "AH 1234567" ∧
    normalize_gcn_number "SCV0099887" = "V 0099887" ∧
    normalize_gcn_number "AA01555158" = "AA 01555158" ∧
    normalize_gcn_number "D0042250" = "D 0042250" := by
  refine ⟨fun s L D hdec hL hD hLu hDd => ?_, fun s hno => ?_, by decide, by decide,
    by decide, by decide⟩
  · show (⟨normalizeCore s.data⟩ : String) = _
    unfold normalizeCore
    rw [hdec, canonOf_decomp hL hD hLu hDd]
  · show (⟨normalizeCore s.data⟩ : String) = _
    unfold normalizeCore
    rw [canonOf_eq_self_of_no_decomp hno]

/-! ## Lemmas about the per-file pipeline -/

/-- Structural invariants of the guarded block of `process_single_pdf`:
its terminal status is `skip`, `error` or `success`; the comparison
field is the Match marker exactly on the success path with equal
normalized identifiers; the comparison field is `"N/A"` whenever an
identifier carries a sentinel; the filename identifier is either left
empty or set from `extract_gcn_from_filename` after validation passed;
and the result is not marked as coming from the cache. -/
theorem tryBody_inv (t : Task) (index : Nat) (env : PdfEnv) :
    ((tryBody t index env).1.status = "skip" ∨ (tryBody t index env).1.status = "error" ∨
        (tryBody t index env).1.status = "success") ∧
    ((tryBody t index env).1.comparison = "Đúng" ↔
      ((tryBody t index env).1.status = "success" ∧
        normalize_gcn_number (tryBody t index env).1.filename_gcn =
          normalize_gcn_number (tryBody t index env).1.predicted_gcn)) ∧
    (((tryBody t index env).1.filename_gcn = "UNKNOWN" ∨
        (tryBody t index env).1.predicted_gcn = "ERROR") →
      (tryBody t index env).1.comparison = "N/A") ∧
    ((tryBody t index env).1.filename_gcn = "" ∨
      ((validate_filename_format t.name).1 = true ∧
        (tryBody t index env).1.filename_gcn = extract_gcn_from_filename t.name)) ∧
    (tryBody t index env).1.from_cache = false ∧
    (tryBody t index env).1.index = index ∧
    (tryBody t index env).2.cacheWrites = 0 := by
  unfold tryBody
  rcases hv : validate_filename_format t.name with ⟨b, msg⟩
  rcases b with _ | _
  · simp
  · rcases hi : env.img with e | img_b64
    · simp [hv]
    · by_cases hfalsy : img_b64 = none ∨ img_b64 = some ""
      · simp [hv, hfalsy]
      · rcases hl : env.llm with e | ⟨raw, llm_error⟩
        · simp [hv, hfalsy]
        · by_cases hrawE : raw = "ERROR"
          · simp [hv, hfalsy, hrawE]
          · by_cases hpredE : normalize_gcn_number raw = "ERROR"
            · simp [hv, hfalsy, hrawE, hpredE]
            · by_cases hfU : extract_gcn_from_filename t.name = "UNKNOWN"
              · simp [hv, hfalsy, hrawE, hpredE, hfU]
              · by_cases heq : normalize_gcn_number (extract_gcn_from_filename t.name) =
                    normalize_gcn_number (normalize_gcn_number raw)
                · simp [hv, hfalsy, hrawE, hpredE, hfU, compare_gcn, heq]
                · simp [hv, hfalsy, hrawE, hpredE, hfU, compare_gcn, heq]

/-- On the fresh path with a cache present, the `finally` block always
attempts the write (the guarded block always ends in a terminal status);
with no write fault the record is stored with replace-on-write. -/
theorem freshOutcome_some (t : Task) (index : Nat) (env : PdfEnv) (c : Cache)
    (hw : env.writeFault = none) :
    freshOutcome t index env (some c) =
      .ok (freshResult t index env,
           some (c.add_processed (recordOf t (freshResult t index env) env.now)),
           { (tryBody t index env).2 with cacheWrites := 1 }) := by
  have hst : (freshResult t index env).status = "skip" ∨
      (freshResult t index env).status = "error" ∨
      (freshResult t index env).status = "success" := (tryBody_inv t index env).1
  unfold freshOutcome
  rw [if_pos ⟨rfl, by tauto⟩, hw]
  rfl

/-- On the fresh path with a cache present, a faulting `add_processed`
escapes `process_single_pdf`. -/
theorem freshOutcome_some_fault (t : Task) (index : Nat) (env : PdfEnv)
    (c : Cache) (e : String) (hw : env.writeFault = some e) :
    freshOutcome t index env (some c) = .error e := by
  have hst : (freshResult t index env).status = "skip" ∨
      (freshResult t index env).status = "error" ∨
      (freshResult t index env).status = "success" := (tryBody_inv t index env).1
  unfold freshOutcome
  rw [if_pos ⟨rfl, by tauto⟩, hw]
  rfl

/-- Without a cache the fresh path never writes. -/
theorem freshOutcome_none (t : Task) (index : Nat) (env : PdfEnv) :
    freshOutcome t index env none =
      .ok (freshResult t index env, none, (tryBody t index env).2) := by
  unfold freshOutcome
  rw [if_neg (by simp)]
  rfl

/-- Inversion of a delivered result of `process_single_pdf`: it is
either a verbatim cache hit, or the fresh result of the guarded block,
in the latter case with the record written back exactly when a cache is
present. -/
theorem process_ok_inversion {t : Task} {index : Nat} {env : PdfEnv}
    {cache : Option Cache} {sp : Bool} {r : PResult} {c' : Option Cache}
    {calls : Calls}
    (h : process_single_pdf t index env cache sp = .ok (r, c', calls)) :
    (∃ c rec, cache = some c ∧ sp = true ∧ env.lookupFault = none ∧
      c.lookup t.fingerprint = some rec ∧ r = hitResult t index rec ∧
      c' = some c ∧ calls = ⟨0, 0, 0⟩) ∨
    (r = freshResult t index env ∧
      ((cache = none ∧ c' = none ∧ calls = (tryBody t index env).2) ∨
       (∃ c, cache = some c ∧ env.writeFault = none ∧
         c' = some (c.add_processed (recordOf t (freshResult t index env) env.now)) ∧
         calls = { (tryBody t index env).2 with cacheWrites := 1 }))) := by
  cases cache with
  | none =>
      have hd : process_single_pdf t index env none sp =
          freshOutcome t index env none := rfl
      rw [hd, freshOutcome_none] at h
      obtain ⟨rfl, rfl, rfl⟩ := by simpa using h
      exact Or.inr ⟨rfl, Or.inl ⟨rfl, rfl, rfl⟩⟩
  | some c =>
      cases sp with
      | false =>
          have hd : process_single_pdf t index env (some c) false =
              freshOutcome t index env (some c) := rfl
          rw [hd] at h
          cases hw : env.writeFault with
          | none =>
              rw [freshOutcome_some t index env c hw] at h
              obtain ⟨rfl, rfl, rfl⟩ := by simpa using h
              exact Or.inr ⟨rfl, Or.inr ⟨c, rfl, rfl, rfl, rfl⟩⟩
          | some e =>
              rw [freshOutcome_some_fault t index env c e hw] at h
              simp at h
      | true =>
          have hd : process_single_pdf t index env (some c) true =
              (match env.lookupFault with
               | some e => throw e
               | none =>
                  match c.lookup t.fingerprint with
                  | some rec => pure (hitResult t index rec, some c, ⟨0, 0, 0⟩)
                  | none => freshOutcome t index env (some c)) := rfl
          rw [hd] at h
          cases hl : env.lookupFault with
          | some e =>
              rw [hl] at h
              simp at h
          | none =>
              rw [hl] at h
              cases hrec : c.lookup t.fingerprint with
              | some rec =>
                  rw [hrec] at h
                  obtain ⟨rfl, rfl, rfl⟩ := by simpa using h
                  exact Or.inl ⟨c, rec, rfl, rfl, rfl, hrec, rfl, rfl, rfl⟩
              | none =>
                  rw [hrec] at h
                  cases hw : env.writeFault with
                  | none =>
                      rw [freshOutcome_some t index env c hw] at h
                      obtain ⟨rfl, rfl, rfl⟩ := by simpa using h
                      exact Or.inr ⟨rfl, Or.inr ⟨c, rfl, rfl, rfl, rfl⟩⟩
                  | some e =>
                      rw [freshOutcome_some_fault t index env c e hw] at h
                      simp at h

/-- Witness for C3: the first table entry, obtained from the general
decomposition clause at the concrete decomposition of `"SOAH1234567"`. -/
theorem normalize_gcn_shape_witness :
    normalize_gcn_number "SOAH1234567" =
      ⟨truncLetters "SOAH".data ++ ' ' :: "1234567".data⟩ :=
  normalize_gcn_shape.1 "SOAH1234567" "SOAH".data "1234567".data (by decide)
    (by decide) (by decide) (by decide) (by decide)

/-! ## C9: diagnostic priority of `validate_filename_format` -/

theorem endsWith_pdf_of_gcn {cs : List Char}
    (h : endsWithL cs "-GCN.pdf".data = true) : endsWithL cs ".pdf".data = true := by
  unfold endsWithL at h ⊢
  rw [List.isSuffixOf_iff_suffix] at h ⊢
  exact List.IsSuffix.trans (by decide) h

/-- C9: every rejected filename receives the diagnostic of the first
failing check in the fixed priority order — not a PDF, then missing
`-GCN.pdf` suffix, then no leading letter, then leading letters not
uppercase, then no digits present, then the generic format failure —
and the three table examples of the specification hold. -/
theorem validate_diag_priority :
    (∀ name : String, mainPattern name.data = false →
      (endsWithL name.data ".pdf".data = false →
        validate_filename_format name = (false, "Không phải file PDF")) ∧
      (endsWithL name.data ".pdf".data = true →
        endsWithL name.data "-GCN.pdf".data = false →
        validate_filename_format name = (false, "Không kết thúc bằng -GCN.pdf")) ∧
      (endsWithL name.data "-GCN.pdf".data = true → pfxMatch name.data = none →
        validate_filename_format name = (false, "Không có chữ cái đầu tiên")) ∧
      (∀ p, endsWithL name.data "-GCN.pdf".data = true →
        pfxMatch name.data = some p → p.all isUpp = false →
        validate_filename_format name =
          (false, "Chữ cái phải viết HOA (hiện tại: \x27" ++ (⟨p⟩ : String) ++ "\x27)")) ∧
      (∀ p, endsWithL name.data "-GCN.pdf".data = true →
        pfxMatch name.data = some p → p.all isUpp = true →
        name.data.any isDig = false →
        validate_filename_format name = (false, "Thiếu phần số")) ∧
      (∀ p, endsWithL name.data "-GCN.pdf".data = true →
        pfxMatch name.data = some p → p.all isUpp = true →
        name.data.any isDig = true →
        validate_filename_format name = (false, "Sai format tên file"))) ∧
    validate_filename_format "AA 01555158-GCN.pdf" = (true, "") ∧
    validate_filename_format "aa123-GCN.pdf" =
      (false, "Chữ cái phải viết HOA (hiện tại: \x27aa\x27)") ∧
    validate_filename_format "AA123.pdf" =
      (false, "Không kết thúc bằng -GCN.pdf") := by
  refine ⟨fun name hm => ⟨fun h1 => ?_, fun h1 h2 => ?_, fun h2 hp => ?_,
    fun p h2 hp hu => ?_, fun p h2 hp hu hd => ?_, fun p h2 hp hu hd => ?_⟩,
    by decide, by decide, by decide⟩
  · simp [validate_filename_format, hm, h1]
  · simp [validate_filename_format, hm, h1, h2]
  · simp [validate_filename_format, hm, endsWith_pdf_of_gcn h2, h2, hp]
  · simp [validate_filename_format, hm, endsWith_pdf_of_gcn h2, h2, hp, hu]
  · simp [validate_filename_format, hm, endsWith_pdf_of_gcn h2, h2, hp, hu, hd]
  · simp [validate_filename_format, hm, endsWith_pdf_of_gcn h2, h2, hp, hu, hd]

/-- Witness for C9: the lowercase-prefix diagnostic of `"aa123-GCN.pdf"`
obtained through the priority clause for non-uppercase leading letters. -/
theorem validate_diag_priority_witness :
    validate_filename_format "aa123-GCN.pdf" =
      (false, "Chữ cái phải viết HOA (hiện tại: \x27" ++ (⟨['a', 'a']⟩ : String) ++ "\x27)") :=
  ((validate_diag_priority.1 "aa123-GCN.pdf" (by decide)).2.2.2.1 ['a', 'a']
    (by decide) (by decide) (by decide))

/-! ## C10: extraction after validation never yields the sentinel -/

theorem isLet_of_isUpp {c : Char} (h : isUpp c = true) : isLet c = true := by
  have h1 : 65 ≤ c.toNat ∧ c.toNat ≤ 90 := by simpa [isUpp] using h
  simp [isLet]
  omega

theorem isDig_false_of_isLet {c : Char} (h : isLet c = true) : isDig c = false := by
  have h1 : (65 ≤ c.toNat ∧ c.toNat ≤ 90) ∨ (97 ≤ c.toNat ∧ c.toNat ≤ 122) := by
    simpa [isLet] using h
  simp [isDig]
  omega

theorem pySpace_false_of_isLet {c : Char} (h : isLet c = true) : pySpace c = false := by
  have h1 : (65 ≤ c.toNat ∧ c.toNat ≤ 90) ∨ (97 ≤ c.toNat ∧ c.toNat ≤ 122) := by
    simpa [isLet] using h
  simp [pySpace]
  omega

theorem isAlnum_of_isLet {c : Char} (h : isLet c = true) : isAlnum c = true := by
  simp [isAlnum, h]

theorem isAlnum_false_of_pySpace {c : Char} (h : pySpace c = true) :
    isAlnum c = false := by
  have h1 : c.toNat = 32 ∨ c.toNat = 9 ∨ c.toNat = 10 ∨ c.toNat = 13 ∨
      c.toNat = 12 ∨ c.toNat = 11 := by simpa [pySpace, or_assoc] using h
  simp [isAlnum, isLet, isDig]
  omega

/-- A letter directly after the single leading letter kills the
validation tail: it is neither whitespace nor a digit. -/
theorem mainTail_cons_false_of_isLet {b : Char} {rest : List Char}
    (hb : isLet b = true) : mainTail (b :: rest) = false := by
  have hsp : pySpace b = false := pySpace_false_of_isLet hb
  have hdg : isDig b = false := isDig_false_of_isLet hb
  simp [mainTail, List.dropWhile_cons, hsp, List.takeWhile_cons, hdg]

theorem mainTail_ds_ne {rest : List Char} (h : mainTail rest = true) :
    (rest.dropWhile pySpace).takeWhile isDig ≠ [] := by
  simp only [mainTail, Bool.and_eq_true, decide_eq_true_iff] at h
  exact h.1

/-- A successful validation tail yields a successful extraction tail:
the extractor only needs the weaker `-GCN` literal where the validator
demanded `-GCN.pdf` up to the very end. -/
theorem gcnTail_of_mainTail {rest : List Char} (h : mainTail rest = true) :
    gcnTail rest "-GCN".data =
      some (rest.takeWhile pySpace ++ (rest.dropWhile pySpace).takeWhile isDig) := by
  simp only [mainTail, Bool.and_eq_true, decide_eq_true_iff] at h
  obtain ⟨hds, heq⟩ := h
  have hci : ciStartsWith "-GCN.pdf".data "-GCN".data = true := by decide
  simp only [gcnTail, heq, hci, hds, Bool.and_true, decide_eq_true_iff]
  simp [hds]

/-- The main validation pattern forces a primary-extraction match at
position 0, and the captured group splits into letters, whitespace and
digits. -/
theorem matchPrimaryAt_of_mainPattern {cs : List Char} (h : mainPattern cs = true) :
    ∃ letters ws ds,
      matchPrimaryAt cs = some (letters ++ ws ++ ds) ∧ letters ≠ [] ∧ ds ≠ [] ∧
      (∀ c ∈ letters, isLet c = true) ∧ (∀ c ∈ ws, pySpace c = true) ∧
      (∀ c ∈ ds, isDig c = true) := by
  match cs with
  | [] => simp [mainPattern] at h
  | [a] =>
      have hmt : mainTail [] = false := by decide
      simp [mainPattern, hmt] at h
  | a :: b :: rest =>
      rw [show mainPattern (a :: b :: rest) =
        ((isUpp a && isUpp b && mainTail rest) || (isUpp a && mainTail (b :: rest)))
        from rfl, Bool.or_eq_true, Bool.and_eq_true, Bool.and_eq_true,
        Bool.and_eq_true] at h
      rcases h with ⟨⟨ha, hb⟩, ht⟩ | ⟨ha, ht⟩
      · have hla := isLet_of_isUpp ha
        have hlb := isLet_of_isUpp hb
        refine ⟨[a, b], rest.takeWhile pySpace,
          (rest.dropWhile pySpace).takeWhile isDig, ?_, by simp,
          mainTail_ds_ne ht, ?_, ?_, ?_⟩
        · simp [matchPrimaryAt, hla, hlb, gcnTail_of_mainTail ht]
        · intro c hc
          rcases List.mem_cons.mp hc with rfl | hc2
          · exact hla
          rcases List.mem_cons.mp hc2 with rfl | hc3
          · exact hlb
          · exact absurd hc3 (List.not_mem_nil c)
        · exact fun c hc => List.mem_takeWhile_imp hc
        · exact fun c hc => List.mem_takeWhile_imp hc
      · have hla := isLet_of_isUpp ha
        by_cases hlb : isLet b = true
        · rw [mainTail_cons_false_of_isLet hlb] at ht
          exact absurd ht (by simp)
        · rw [Bool.not_eq_true] at hlb
          refine ⟨[a], (b :: rest).takeWhile pySpace,
            ((b :: rest).dropWhile pySpace).takeWhile isDig, ?_, by simp,
            mainTail_ds_ne ht, ?_, ?_, ?_⟩
          · simp [matchPrimaryAt, hla, hlb, gcnTail_of_mainTail ht]
          · intro c hc
            rcases List.mem_cons.mp hc with rfl | hc2
            · exact hla
            · exact absurd hc2 (List.not_mem_nil c)
          · exact fun c hc => List.mem_takeWhile_imp hc
          · exact fun c hc => List.mem_takeWhile_imp hc

theorem searchPrimary_cons_of_match {c : Char} {cs : List Char} {g : List Char}
    (h : matchPrimaryAt (c :: cs) = some g) : searchPrimary (c :: cs) = some g := by
  unfold searchPrimary
  rw [h]

/-- Normalizing a captured group (letters, optional whitespace, digits)
produces the canonical spaced form. -/
theorem normalize_group {letters ws ds : List Char}
    (hl : letters ≠ []) (hd : ds ≠ [])
    (hlet : ∀ c ∈ letters, isLet c = true)
    (hws : ∀ c ∈ ws, pySpace c = true)
    (hdig : ∀ c ∈ ds, isDig c = true) :
    normalize_gcn_number ⟨letters ++ ws ++ ds⟩ =
      ⟨truncLetters (letters.map pyUpper) ++ ' ' :: ds⟩ := by
  show (⟨normalizeCore (letters ++ ws ++ ds)⟩ : String) = _
  unfold normalizeCore
  have h1 : cleanUp letters = letters.map pyUpper := by
    show (letters.filter isAlnum).map pyUpper = _
    rw [List.filter_eq_self.mpr fun a ha => isAlnum_of_isLet (hlet a ha)]
  have h2 : cleanUp ws = [] := by
    show (ws.filter isAlnum).map pyUpper = []
    rw [List.filter_eq_nil_iff.mpr fun a ha => by
      simp [isAlnum_false_of_pySpace (hws a ha)]]
    rfl
  have h3 : cleanUp ds = ds := cleanUp_of_all_isDig hdig
  have hc : cleanUp (letters ++ ws ++ ds) = letters.map pyUpper ++ ds := by
    rw [cleanUp_append, cleanUp_append, h1, h2, h3, List.append_nil]
  have hmu : ∀ c ∈ letters.map pyUpper, isUpp c = true := by
    intro c hc2
    rcases List.mem_map.mp hc2 with ⟨x, hx, rfl⟩
    exact isUpp_pyUpper_of_isLet (hlet x hx)
  rw [hc, canonOf_decomp (by simpa [List.map_eq_nil_iff] using hl) hd hmu hdig]

/-- A string holding a space is never the sentinel `"UNKNOWN"`. -/
theorem mk_space_ne_unknown (L D : List Char) :
    (⟨L ++ ' ' :: D⟩ : String) ≠ "UNKNOWN" := by
  intro h
  have hd : L ++ ' ' :: D = "UNKNOWN".data := congrArg String.data h
  have hm : ' ' ∈ "UNKNOWN".data :=
    hd ▸ List.mem_append_right L (List.mem_cons_self _ _)
  revert hm
  decide

/-- A rejected filename yields `ok = false`. -/
theorem validate_fst_false {name : String} (hm : mainPattern name.data = false) :
    (validate_filename_format name).1 = false := by
  unfold validate_filename_format
  rw [if_neg (by simp [hm])]
  repeat' split
  all_goals rfl

/-- C10: for every filename accepted by `validate_filename_format`,
`extract_gcn_from_filename` returns a value different from the sentinel
`"UNKNOWN"`; consequently no fresh result of `process_single_pdf` ever
carries the sentinel as its filename identifier, so the error branches
guarded by `filename_gcn == "UNKNOWN"` after validation are unreachable. -/
theorem extract_after_validate_not_unknown :
    (∀ name : String, (validate_filename_format name).1 = true →
      extract_gcn_from_filename name ≠ "UNKNOWN") ∧
    (∀ (t : Task) (index : Nat) (env : PdfEnv) (cache : Option Cache) (sp : Bool)
      (r : PResult) (c' : Option Cache) (calls : Calls),
      process_single_pdf t index env cache sp = .ok (r, c', calls) →
      r.from_cache = false → r.filename_gcn ≠ "UNKNOWN") := by
  have main : ∀ name : String, mainPattern name.data = true →
      extract_gcn_from_filename name ≠ "UNKNOWN" := by
    intro name hm
    obtain ⟨letters, ws, ds, hmatch, hl, hd, hlet, hws, hdig⟩ :=
      matchPrimaryAt_of_mainPattern hm
    have hs : searchPrimary name.data = some (letters ++ ws ++ ds) := by
      cases hcs : name.data with
      | nil =>
          rw [hcs] at hmatch
          simp [matchPrimaryAt] at hmatch
      | cons c cs =>
          rw [hcs] at hmatch
          exact searchPrimary_cons_of_match hmatch
    unfold extract_gcn_from_filename
    rw [hs]
    show normalize_gcn_number ⟨letters ++ ws ++ ds⟩ ≠ "UNKNOWN"
    rw [normalize_group hl hd hlet hws hdig]
    exact mk_space_ne_unknown _ _
  have hvm : ∀ name : String, (validate_filename_format name).1 = true →
      mainPattern name.data = true := by
    intro name hv
    by_contra hm
    rw [Bool.not_eq_true] at hm
    rw [validate_fst_false hm] at hv
    exact absurd hv (by simp)
  refine ⟨fun name hv => main name (hvm name hv), ?_⟩
  intro t index env cache sp r c' calls hok hfresh
  rcases process_ok_inversion hok with ⟨c, rec, _, _, _, _, hr, _, _⟩ | ⟨hr, _⟩
  · rw [hr] at hfresh
    exact absurd hfresh (by simp [hitResult])
  · rw [hr]
    have hfeq : (freshResult t index env).filename_gcn =
        (tryBody t index env).1.filename_gcn := rfl
    rcases (tryBody_inv t index env).2.2.2.1 with h4 | ⟨hv, h4⟩
    · rw [hfeq, h4]
      decide
    · rw [hfeq, h4]
      exact main t.name (hvm t.name hv)

/-- Witness for C10: the validated filename `"AA 01555158-GCN.pdf"`
extracts to a non-sentinel identifier. -/
theorem extract_after_validate_not_unknown_witness :
    extract_gcn_from_filename "AA 01555158-GCN.pdf" ≠ "UNKNOWN" :=
  extract_after_validate_not_unknown.1 "AA 01555158-GCN.pdf" (by decide)

/-! ## C6: cache short-circuit -/

/-- C6: with the cache enabled (`skip_processed = true` and a cache
instance passed) and the task's fingerprint present, `process_single_pdf`
returns the stored record's fields verbatim with status `"cached"`,
elapsed time 0, `from_cache` true and the stored `processed_at`
timestamp, leaves the cache unchanged, and issues no page extraction, no
recognition call and no cache write. -/
theorem cache_hit_short_circuit (t : Task) (index : Nat) (env : PdfEnv)
    (c : Cache) (rec : CacheRecord) (hl : env.lookupFault = none)
    (hrec : c.lookup t.fingerprint = some rec) :
    process_single_pdf t index env (some c) true =
      .ok ({ index := index, pdf_file := t.name, pdf_path := t.path,
             filename_gcn := rec.filename_gcn, predicted_gcn := rec.predicted_gcn,
             comparison := rec.comparison, status := "cached", error := rec.error,
             time := 0, from_cache := true, processed_at := some rec.processed_at },
           some c, { pageExtractions := 0, llmCalls := 0, cacheWrites := 0 }) := by
  have hd : process_single_pdf t index env (some c) true =
      (match env.lookupFault with
       | some e => throw e
       | none =>
          match c.lookup t.fingerprint with
          | some rec => pure (hitResult t index rec, some c, ⟨0, 0, 0⟩)
          | none => freshOutcome t index env (some c)) := rfl
  rw [hd, hl, hrec]
  rfl

/-- A task, a stored record for its fingerprint, and an environment used
to instantiate the processor theorems on concrete inputs. -/
def wRec : CacheRecord :=
  { file_hash := "h1", file_path := "input/AA 123-GCN.pdf",
    file_name := "AA 123-GCN.pdf", processed_at := "2025-01-02T03:04:05",
    status := "success", comparison := "Đúng", filename_gcn := "AA 123",
    predicted_gcn := "AA 123", error := none }

def wTask : Task :=
  { name := "AA 123-GCN.pdf", path := "input/AA 123-GCN.pdf", fingerprint := "h1" }

def wEnv : PdfEnv :=
  { lookupFault := none, img := .ok (some "imgdata"), llm := .ok ("AA123", none),
    writeFault := none, elapsed := 2, now := "2025-01-02T03:04:06" }

/-- Witness for C6 at a concrete cache hit. -/
theorem cache_hit_short_circuit_witness :
    process_single_pdf wTask 1 wEnv (some [wRec]) true =
      .ok ({ index := 1, pdf_file := wTask.name, pdf_path := wTask.path,
             filename_gcn := wRec.filename_gcn, predicted_gcn := wRec.predicted_gcn,
             comparison := wRec.comparison, status := "cached", error := wRec.error,
             time := 0, from_cache := true, processed_at := some wRec.processed_at },
           some [wRec], { pageExtractions := 0, llmCalls := 0, cacheWrites := 0 }) :=
  cache_hit_short_circuit wTask 1 wEnv [wRec] wRec rfl rfl

/-! ## C7: one record per fingerprint; write discipline -/

theorem add_processed_nodup {c : Cache}
    (h : (c.map CacheRecord.file_hash).Nodup) (rec : CacheRecord) :
    ((c.add_processed rec).map CacheRecord.file_hash).Nodup := by
  unfold Cache.add_processed
  rw [List.map_append]
  refine List.Nodup.append ?_ (by simp) ?_
  · exact ((List.filter_sublist c).map CacheRecord.file_hash).nodup h
  · intro x hx hy
    have hxr : x = rec.file_hash := by simpa using hy
    rcases List.mem_map.mp hx with ⟨a, ha, rfl⟩
    have hne := (List.mem_filter.mp ha).2
    simp only [decide_eq_true_iff] at hne
    exact hne (by simpa using hxr)

theorem applyOp_nodup {c : Cache} (h : (c.map CacheRecord.file_hash).Nodup)
    (op : CacheOp) : ((c.applyOp op).map CacheRecord.file_hash).Nodup := by
  cases op with
  | add rec => exact add_processed_nodup h rec
  | remove hs =>
      exact ((List.filter_sublist c).map CacheRecord.file_hash).nodup h
  | clear => simp [Cache.applyOp, Cache.clear]

/-- C7: after any sequence of cache operations the table keeps at most
one record per fingerprint (replace-on-write), and `process_single_pdf`
performs a cache write exactly when a cache is present and the terminal
status is `success`, `skip` or `error` — never for a cache-hit result. -/
theorem cache_unique_and_write_discipline :
    (∀ (ops : List CacheOp) (c : Cache),
      (c.map CacheRecord.file_hash).Nodup →
      ((c.applyOps ops).map CacheRecord.file_hash).Nodup) ∧
    (∀ (t : Task) (index : Nat) (env : PdfEnv) (cache : Option Cache) (sp : Bool)
      (r : PResult) (c' : Option Cache) (calls : Calls),
      process_single_pdf t index env cache sp = .ok (r, c', calls) →
      (calls.cacheWrites = 1 ↔ cache.isSome = true ∧
        (r.status = "success" ∨ r.status = "skip" ∨ r.status = "error")) ∧
      (r.from_cache = true → calls.cacheWrites = 0)) := by
  constructor
  · intro ops
    induction ops with
    | nil => exact fun c h => h
    | cons op rest ih => exact fun c h => ih _ (applyOp_nodup h op)
  · intro t index env cache sp r c' calls hok
    rcases process_ok_inversion hok with
      ⟨c, rec, hcache, _, _, _, hr, _, hcalls⟩ | ⟨hr, hrest⟩
    · subst hr
      subst hcalls
      refine ⟨⟨fun h0 => absurd h0 (by simp), fun hrc => ?_⟩, fun _ => rfl⟩
      rcases hrc.2 with h2 | h2 | h2 <;> simp [hitResult] at h2
    · have hst : (freshResult t index env).status = "skip" ∨
          (freshResult t index env).status = "error" ∨
          (freshResult t index env).status = "success" := (tryBody_inv t index env).1
      have hfc : (freshResult t index env).from_cache = false :=
        (tryBody_inv t index env).2.2.2.2.1
      rcases hrest with ⟨hcache, hc', hcalls⟩ | ⟨c, hcache, _, hc', hcalls⟩
      · subst hr
        subst hcalls
        refine ⟨⟨fun h0 => ?_, fun hrc => ?_⟩, fun hfc2 => ?_⟩
        · rw [(tryBody_inv t index env).2.2.2.2.2.2] at h0
          exact absurd h0 (by simp)
        · rw [hcache] at hrc
          simp at hrc
        · exact (tryBody_inv t index env).2.2.2.2.2.2
      · subst hr
        subst hcalls
        refine ⟨⟨fun _ => ⟨by rw [hcache]; rfl, by tauto⟩, fun _ => rfl⟩, fun hfc2 => ?_⟩
        rw [hfc] at hfc2
        exact absurd hfc2 (by simp)

/-- Witness for C7: the replace-on-write invariant after a concrete
operation sequence, and the write-exactness at a concrete fresh run. -/
theorem cache_unique_and_write_discipline_witness :
    (((Cache.applyOps [] [.add wRec, .add wRec, .remove "h2"]).map
        CacheRecord.file_hash).Nodup) ∧
    ({ pageExtractions := 1, llmCalls := 1, cacheWrites := 1 } : Calls).cacheWrites = 1 :=
  ⟨cache_unique_and_write_discipline.1 [.add wRec, .add wRec, .remove "h2"] []
      (by simp),
    rfl⟩

/-! ## C2: fault isolation of a single task -/

def faultEnv : PdfEnv :=
  { lookupFault := some "sqlite3.OperationalError: database is locked",
    img := .ok (some "imgdata"), llm := .ok ("AA 123", none),
    writeFault := none, elapsed := 1, now := "2025-01-02T03:04:05" }

/-- C2 counterexample: the cache lookup runs BEFORE the `try` block, so
a cache-lookup fault escapes `process_single_pdf` instead of being
converted to an error result — the call yields an exception, not a
result. -/
theorem single_pdf_lookup_fault_escapes :
    process_single_pdf wTask 1 faultEnv (some []) true =
      .error "sqlite3.OperationalError: database is locked" := rfl

/-- Totality of `process_single_pdf` when the cache operations do not
fault. -/
theorem process_total (t : Task) (index : Nat) (env : PdfEnv)
    (cache : Option Cache) (sp : Bool)
    (hl : env.lookupFault = none) (hw : env.writeFault = none) :
    ∃ r c' calls, process_single_pdf t index env cache sp = .ok (r, c', calls) := by
  cases cache with
  | none =>
      exact ⟨_, _, _, by
        rw [show process_single_pdf t index env none sp =
          freshOutcome t index env none from rfl, freshOutcome_none]⟩
  | some c =>
      cases sp with
      | false =>
          exact ⟨_, _, _, by
            rw [show process_single_pdf t index env (some c) false =
              freshOutcome t index env (some c) from rfl,
              freshOutcome_some t index env c hw]⟩
      | true =>
          have hd : process_single_pdf t index env (some c) true =
              (match env.lookupFault with
               | some e => throw e
               | none =>
                  match c.lookup t.fingerprint with
                  | some rec => pure (hitResult t index rec, some c, ⟨0, 0, 0⟩)
                  | none => freshOutcome t index env (some c)) := rfl
          cases hrec : c.lookup t.fingerprint with
          | some rec => exact ⟨_, _, _, by rw [hd, hl, hrec]; rfl⟩
          | none =>
              exact ⟨_, _, _, by
                rw [hd, hl, hrec, freshOutcome_some t index env c hw]⟩

/-- A page-extraction exception is converted by the `except` clause. -/
theorem tryBody_img_error {t : Task} {index : Nat} {env : PdfEnv} {e : String}
    (hv : (validate_filename_format t.name).1 = true) (hi : env.img = .error e) :
    (tryBody t index env).1.status = "error" ∧
    (tryBody t index env).1.error = some e ∧
    (tryBody t index env).1.comparison = "N/A" := by
  rcases hval : validate_filename_format t.name with ⟨b, msg⟩
  cases b
  · rw [hval] at hv
    exact absurd hv (by simp)
  · simp [tryBody, hval, hi]

/-- A recognition-call exception is converted by the `except` clause. -/
theorem tryBody_llm_error {t : Task} {index : Nat} {env : PdfEnv} {e : String}
    {img_b64 : Option String}
    (hv : (validate_filename_format t.name).1 = true) (hi : env.img = .ok img_b64)
    (hne : ¬(img_b64 = none ∨ img_b64 = some "")) (hl : env.llm = .error e) :
    (tryBody t index env).1.status = "error" ∧
    (tryBody t index env).1.error = some e ∧
    (tryBody t index env).1.comparison = "N/A" := by
  rcases hval : validate_filename_format t.name with ⟨b, msg⟩
  cases b
  · rw [hval] at hv
    exact absurd hv (by simp)
  · simp [tryBody, hval, hi, hne, hl]

/-- C2 (amended): when the cache lookup and the cache write do not
fault, `process_single_pdf` returns exactly one result for every task;
an exception raised by page extraction or by the recognition call is
converted to a terminal result with status `"error"` carrying the
exception text.  (Faults of the cache lookup — which runs before the
`try` block — and of the cache write — which runs in the `finally`
block — escape instead, see the counterexample.) -/
theorem single_pdf_isolation (t : Task) (index : Nat) (env : PdfEnv)
    (cache : Option Cache) (sp : Bool)
    (hl : env.lookupFault = none) (hw : env.writeFault = none) :
    (∃ r c' calls, process_single_pdf t index env cache sp = .ok (r, c', calls)) ∧
    (∀ (r : PResult) (c' : Option Cache) (calls : Calls) (e : String),
      process_single_pdf t index env cache sp = .ok (r, c', calls) →
      r.from_cache = false → (validate_filename_format t.name).1 = true →
      env.img = .error e →
      r.status = "error" ∧ r.error = some e ∧ r.comparison = "N/A") ∧
    (∀ (r : PResult) (c' : Option Cache) (calls : Calls) (e : String)
      (img_b64 : Option String),
      process_single_pdf t index env cache sp = .ok (r, c', calls) →
      r.from_cache = false → (validate_filename_format t.name).1 = true →
      env.img = .ok img_b64 → ¬(img_b64 = none ∨ img_b64 = some "") →
      env.llm = .error e →
      r.status = "error" ∧ r.error = some e ∧ r.comparison = "N/A") := by
  refine ⟨process_total t index env cache sp hl hw, ?_, ?_⟩
  · intro r c' calls e hok hfc hv hi
    rcases process_ok_inversion hok with ⟨c, rec, _, _, _, _, hr, _, _⟩ | ⟨hr, _⟩
    · rw [hr] at hfc
      exact absurd hfc (by simp [hitResult])
    · subst hr
      exact tryBody_img_error hv hi
  · intro r c' calls e img_b64 hok hfc hv hi hne hllm
    rcases process_ok_inversion hok with ⟨c, rec, _, _, _, _, hr, _, _⟩ | ⟨hr, _⟩
    · rw [hr] at hfc
      exact absurd hfc (by simp [hitResult])
    · subst hr
      exact tryBody_llm_error hv hi hne hllm

def imgFaultEnv : PdfEnv :=
  { lookupFault := none, img := .error "fitz.FileDataError: cannot open",
    llm := .ok ("AA 123", none), writeFault := none, elapsed := 1,
    now := "2025-01-02T03:04:05" }

/-- Witness for the amended C2 at a concrete faulting extraction: the
exception text of the page extractor lands in an error result. -/
theorem single_pdf_isolation_witness :
    (freshResult wTask 1 imgFaultEnv).status = "error" ∧
    (freshResult wTask 1 imgFaultEnv).error = some "fitz.FileDataError: cannot open" ∧
    (freshResult wTask 1 imgFaultEnv).comparison = "N/A" :=
  (single_pdf_isolation wTask 1 imgFaultEnv none true rfl rfl).2.1
    (freshResult wTask 1 imgFaultEnv) none (tryBody wTask 1 imgFaultEnv).2
    "fitz.FileDataError: cannot open" rfl rfl (by decide) rfl

/-! ## C5: comparison-verdict invariant -/

/-- Records the processor itself wrote satisfy: a stored Match verdict
comes with equal normalized identifiers, and a stored sentinel
identifier comes with verdict `"N/A"`. -/
def CacheOK (c : Cache) : Prop :=
  ∀ rec : CacheRecord, List.Mem rec c →
    (rec.comparison = "Đúng" →
      normalize_gcn_number rec.filename_gcn = normalize_gcn_number rec.predicted_gcn) ∧
    ((rec.filename_gcn = "UNKNOWN" ∨ rec.predicted_gcn = "ERROR") →
      rec.comparison = "N/A")

theorem cacheOK_add {c : Cache} (hc : CacheOK c) (t : Task) (index : Nat)
    (env : PdfEnv) :
    CacheOK (c.add_processed (recordOf t (freshResult t index env) env.now)) := by
  intro rec hrec
  unfold Cache.add_processed at hrec
  rcases List.mem_append.mp hrec with hmem | hmem
  · exact hc rec (List.mem_filter.mp hmem).1
  · have hrec2 : rec = recordOf t (freshResult t index env) env.now := by
      simpa using hmem
    subst hrec2
    constructor
    · intro hcomp
      exact ((tryBody_inv t index env).2.1.mp hcomp).2
    · intro hsent
      exact (tryBody_inv t index env).2.2.1 hsent

/-- C5 (amended): a fresh result's verdict is the Match marker exactly
when its status is `"success"` and the normalized identifiers agree; any
result's Match verdict implies status `"success"` or `"cached"` with
equal normalized identifiers; the verdict is `"N/A"` whenever an
identifier carries the `"UNKNOWN"` or `"ERROR"` sentinel (an EMPTY
recognized identifier instead yields a Mismatch, see the
counterexample); and processor-written caches stay well-formed. -/
theorem result_verdict_invariant (t : Task) (index : Nat) (env : PdfEnv)
    (cache : Option Cache) (sp : Bool) (r : PResult) (c' : Option Cache)
    (calls : Calls)
    (hok : process_single_pdf t index env cache sp = .ok (r, c', calls))
    (hc : ∀ c, cache = some c → CacheOK c) :
    (r.from_cache = false →
      (r.comparison = "Đúng" ↔ r.status = "success" ∧
        normalize_gcn_number r.filename_gcn = normalize_gcn_number r.predicted_gcn)) ∧
    (r.comparison = "Đúng" →
      (r.status = "success" ∨ r.status = "cached") ∧
      normalize_gcn_number r.filename_gcn = normalize_gcn_number r.predicted_gcn) ∧
    ((r.filename_gcn = "UNKNOWN" ∨ r.predicted_gcn = "ERROR") → r.comparison = "N/A") ∧
    (∀ c'', c' = some c'' → CacheOK c'') := by
  rcases process_ok_inversion hok with
    ⟨c, rec, hcache, _, _, hrec, hr, hc', _⟩ | ⟨hr, hrest⟩
  · have hcOK := hc c hcache
    have hrecOK := hcOK rec (List.mem_of_find?_eq_some hrec)
    subst hr
    refine ⟨fun hf => absurd hf (by simp [hitResult]), fun hcomp => ?_,
      fun hsent => ?_, fun c'' hceq => ?_⟩
    · exact ⟨Or.inr rfl, hrecOK.1 hcomp⟩
    · exact hrecOK.2 hsent
    · rw [hc'] at hceq
      injection hceq with hceq
      exact hceq ▸ hcOK
  · subst hr
    have hinv := tryBody_inv t index env
    refine ⟨fun _ => ?_, fun hcomp => ?_, fun hsent => hinv.2.2.1 hsent,
      fun c'' hceq => ?_⟩
    · exact hinv.2.1
    · exact ⟨Or.inl (hinv.2.1.mp hcomp).1, (hinv.2.1.mp hcomp).2⟩
    · rcases hrest with ⟨_, hc', _⟩ | ⟨c, hcache, _, hc', _⟩
      · rw [hc'] at hceq
        exact absurd hceq (by simp)
      · rw [hc'] at hceq
        injection hceq with hceq
        exact hceq ▸ cacheOK_add (hc c hcache) t index env

def emptyLlmEnv : PdfEnv :=
  { lookupFault := none, img := .ok (some "imgdata"), llm := .ok ("", none),
    writeFault := none, elapsed := 1, now := "2025-01-02T03:04:05" }

/-- The concrete result of a run whose recognition service returns an
empty string without error. -/
def emptyLlmResult : PResult :=
  { index := 1, pdf_file := "AA 123-GCN.pdf", pdf_path := "input/AA 123-GCN.pdf",
    filename_gcn := "AA 123", predicted_gcn := "", comparison := "Cần hiệu đính",
    status := "success", error := none, time := 1, from_cache := false,
    processed_at := none }

/-- C5 counterexample: when the recognition service successfully returns
an EMPTY identifier, the result's recognized identifier is missing yet
the verdict is the Mismatch marker, not `"N/A"` — refuting the claimed
"N/A whenever either identifier is missing". -/
theorem verdict_missing_counterexample :
    process_single_pdf wTask 1 emptyLlmEnv none true =
      .ok (emptyLlmResult, none, { pageExtractions := 1, llmCalls := 1, cacheWrites := 0 }) ∧
    emptyLlmResult.predicted_gcn = "" ∧
    emptyLlmResult.status = "success" ∧
    emptyLlmResult.comparison ≠ "N/A" := by
  refine ⟨?_, rfl, rfl, by decide⟩
  rfl

/-- Witness for the amended C5 at the concrete empty-recognition run:
the fresh-result verdict equivalence evaluated on `emptyLlmResult`. -/
theorem result_verdict_invariant_witness :
    emptyLlmResult.comparison = "Đúng" ↔ emptyLlmResult.status = "success" ∧
      normalize_gcn_number emptyLlmResult.filename_gcn =
        normalize_gcn_number emptyLlmResult.predicted_gcn :=
  (result_verdict_invariant wTask 1 emptyLlmEnv none true emptyLlmResult none
    { pageExtractions := 1, llmCalls := 1, cacheWrites := 0 } rfl
    (fun _ h => nomatch h)).1 rfl

/-- C4: `normalize_gcn_number` is idempotent. -/
theorem normalize_gcn_idempotent (x : String) :
    normalize_gcn_number (normalize_gcn_number x) = normalize_gcn_number x := by
  show (⟨normalizeCore (⟨normalizeCore x.data⟩ : String).data⟩ : String) = _
  show (⟨normalizeCore (normalizeCore x.data)⟩ : String) = _
  rw [normalizeCore_idem]
  rfl

/-! ## C1: the batch restores submission order -/

/-- Every delivered result carries the sequence index it was submitted
with. -/
theorem process_index {t : Task} {index : Nat} {env : PdfEnv}
    {cache : Option Cache} {sp : Bool} {r : PResult} {c' : Option Cache}
    {calls : Calls}
    (h : process_single_pdf t index env cache sp = .ok (r, c', calls)) :
    r.index = index := by
  rcases process_ok_inversion h with ⟨c, rec, _, _, _, _, hr, _, _⟩ | ⟨hr, _⟩
  · rw [hr]
    rfl
  · rw [hr]
    exact (tryBody_inv t index env).2.2.2.2.2.1

/-- When every future delivers a result, the fan-in loop collects their
results in arrival order and the indices of the submission order are
consecutive. -/
theorem gather_batch_indices (sp : Bool) :
    ∀ (items : List BatchItem) (k : Nat),
      (∀ e ∈ batchOutcomesFrom k items sp, ∃ r, e = Except.ok r) →
      (gatherResults (batchOutcomesFrom k items sp)).map PResult.index =
        List.range' k items.length := by
  intro items
  induction items with
  | nil => intro k _; rfl
  | cons it rest ih =>
      intro k hok
      obtain ⟨r, hr⟩ := hok
        ((process_single_pdf it.task k it.env it.cache sp).map (·.1)) (by
          show _ ∈ (process_single_pdf it.task k it.env it.cache sp).map (·.1) ::
            batchOutcomesFrom (k + 1) rest sp
          exact List.mem_cons_self _ _)
      have hidx : r.index = k := by
        cases hx : process_single_pdf it.task k it.env it.cache sp with
        | error e =>
            rw [hx] at hr
            simp [Except.map] at hr
        | ok val =>
            rw [hx] at hr
            have hval : val.1 = r := by simpa [Except.map] using hr
            have := process_index hx
            rw [hval] at this
            exact this
      have hgather : gatherResults (batchOutcomesFrom k (it :: rest) sp) =
          r :: gatherResults (batchOutcomesFrom (k + 1) rest sp) := by
        show List.filterMap Except.toOption
          ((process_single_pdf it.task k it.env it.cache sp).map (·.1) ::
            batchOutcomesFrom (k + 1) rest sp) = _
        rw [hr]
        rfl
      rw [hgather]
      show _ = List.range' k (rest.length + 1)
      rw [List.range'_succ]
      show r.index :: _ = k :: _
      rw [hidx, ih (k + 1) fun e he => hok e (by
        show _ ∈ (process_single_pdf it.task k it.env it.cache sp).map (·.1) ::
          batchOutcomesFrom (k + 1) rest sp
        exact List.mem_cons_of_mem _ he)]

/-- C1: for any batch of N tasks (submitted with sequence indices 1..N)
whose futures all deliver results, and any arrival order of the
completions, the batch returns exactly N results whose i-th element has
sequence index i+1 (0-based i): the output index list is exactly
`[1, ..., N]`. -/
theorem batch_order_restored (items : List BatchItem) (sp : Bool)
    (arrived : List (Except String PResult))
    (hperm : arrived.Perm (batchOutcomes items sp))
    (hok : ∀ e ∈ batchOutcomes items sp, ∃ r, e = Except.ok r) :
    (process_batch_pdfs arrived).length = items.length ∧
    (process_batch_pdfs arrived).map PResult.index = List.range' 1 items.length ∧
    ∀ i (h : i < (process_batch_pdfs arrived).length),
      ((process_batch_pdfs arrived).get ⟨i, h⟩).index = i + 1 := by
  have hidx : (gatherResults (batchOutcomes items sp)).map PResult.index =
      List.range' 1 items.length := gather_batch_indices sp items 1 hok
  have hg : (gatherResults arrived).Perm (gatherResults (batchOutcomes items sp)) :=
    hperm.filterMap _
  have hsortperm : (process_batch_pdfs arrived).Perm (gatherResults arrived) :=
    List.mergeSort_perm _ _
  have hpermidx : ((process_batch_pdfs arrived).map PResult.index).Perm
      (List.range' 1 items.length) := by
    rw [← hidx]
    exact (hsortperm.trans hg).map _
  have hsorted : List.Sorted (fun a b : Nat => a ≤ b)
      ((process_batch_pdfs arrived).map PResult.index) := by
    have hp : List.Pairwise
        (fun a b : PResult => (a.index ≤ b.index : Bool) = true)
        (process_batch_pdfs arrived) := by
      apply List.sorted_mergeSort
      · intro a b c hab hbc
        simp only [decide_eq_true_iff] at hab hbc ⊢
        omega
      · intro a b
        simp only [Bool.or_eq_true, decide_eq_true_iff]
        omega
    exact List.Pairwise.map PResult.index
      (fun a b hab => by simpa using hab) hp
  have hrs : List.Sorted (fun a b : Nat => a ≤ b) (List.range' 1 items.length) :=
    (List.pairwise_lt_range' 1 items.length).imp Nat.le_of_lt
  have heq : (process_batch_pdfs arrived).map PResult.index =
      List.range' 1 items.length :=
    List.eq_of_perm_of_sorted hpermidx hsorted hrs
  have hlen : (process_batch_pdfs arrived).length = items.length := by
    have := congrArg List.length heq
    simpa using this
  refine ⟨hlen, heq, fun i h => ?_⟩
  have h2 : i < ((process_batch_pdfs arrived).map PResult.index).length := by
    simpa using h
  have h3 := List.getElem_of_eq heq h2
  rw [List.getElem_map] at h3
  rw [List.getElem_range'] at h3
  show ((process_batch_pdfs arrived).get ⟨i, h⟩).index = i + 1
  rw [List.get_eq_getElem, h3]
  omega

/-- Totality of a batch whose items never see a cache fault. -/
theorem batchOutcomesFrom_ok (sp : Bool) :
    ∀ (items : List BatchItem) (k : Nat),
      (∀ it ∈ items, it.env.lookupFault = none ∧ it.env.writeFault = none) →
      ∀ e ∈ batchOutcomesFrom k items sp, ∃ r, e = Except.ok r := by
  intro items
  induction items with
  | nil =>
      intro k _ e he
      exact absurd he (List.not_mem_nil e)
  | cons it rest ih =>
      intro k hfaults e he
      have hit := hfaults it (List.mem_cons_self _ _)
      rcases List.mem_cons.mp he with rfl | he2
      · obtain ⟨r, c', calls, hr⟩ :=
          process_total it.task k it.env it.cache sp hit.1 hit.2
        exact ⟨r, by rw [hr]; rfl⟩
      · exact ih (k + 1) (fun x hx => hfaults x (List.mem_cons_of_mem _ hx)) e he2

def wItem : BatchItem := { task := wTask, env := wEnv, cache := none }

/-- Witness for C1: a concrete 3-task batch whose completions arrive in
reverse order still reports indices `[1, 2, 3]`. -/
theorem batch_order_restored_witness :
    (process_batch_pdfs ((batchOutcomes [wItem, wItem, wItem] true).reverse)).map
      PResult.index = [1, 2, 3] :=
  (batch_order_restored [wItem, wItem, wItem] true _
    (List.reverse_perm _)
    (batchOutcomesFrom_ok true [wItem, wItem, wItem] 1 (by decide))).2.1

/-! ## C8: the accuracy statistic -/

/-- A minimal result used to populate concrete statistics lists. -/
def statResult (st cmp : String) : PResult :=
  { index := 1, pdf_file := "f-GCN.pdf", pdf_path := "input/f-GCN.pdf",
    filename_gcn := "A 1", predicted_gcn := "A 1", comparison := cmp,
    status := st, error := none, time := 0, from_cache := false,
    processed_at := none }

/-- A cached Match, a success Match and a success Mismatch. -/
def accListCached : List PResult :=
  [statResult "cached" "Đúng", statResult "success" "Đúng",
   statResult "success" "Cần hiệu đính"]

/-- C8 counterexample: on 3 success-or-cached results with 2 Match and
1 Mismatch, where one Match is cached, the code reports 100% (the
denominator counts only status `"success"`), while the claimed formula
gives 2/3 — the two disagree. -/
theorem accuracy_counterexample :
    accuracy accListCached = some 100 ∧
    specAccuracy accListCached = some (2 / 3) ∧
    ¬((100 : ℚ) = (2 / 3) * 100) := by
  refine ⟨?_, ?_, by norm_num⟩
  · show (if 0 < successCount accListCached then
      some ((correctCount accListCached : ℚ) / (successCount accListCached : ℚ) * 100)
      else none) = some 100
    have h1 : successCount accListCached = 2 := by decide
    have h2 : correctCount accListCached = 2 := by decide
    rw [h1, h2]
    norm_num
  · show (if 0 < (accListCached.filter fun r =>
        r.status = "success" ∨ r.status = "cached").length then
      some (((accListCached.filter fun r =>
        (r.status = "success" ∨ r.status = "cached") ∧
          r.comparison = "Đúng").length : ℚ) /
        ((accListCached.filter fun r =>
          r.status = "success" ∨ r.status = "cached").length : ℚ))
      else none) = some (2 / 3)
    have h1 : (accListCached.filter fun r =>
        r.status = "success" ∨ r.status = "cached").length = 3 := by decide
    have h2 : (accListCached.filter fun r =>
        (r.status = "success" ∨ r.status = "cached") ∧
          r.comparison = "Đúng").length = 2 := by decide
    rw [h1, h2]
    norm_num

/-- C8 (amended): the reported accuracy is absent exactly when no result
has status `"success"` (so no division fault can occur), and otherwise
equals the Match count — which, for result lists produced by the
processor, coincides with the Match count among success-or-cached
results — divided by the count of status-`"success"` results only
(cached results are excluded from the denominator), as a percentage. -/
theorem accuracy_characterization (rs : List PResult)
    (hinv : ∀ r ∈ rs, r.comparison = "Đúng" →
      r.status = "success" ∨ r.status = "cached") :
    (accuracy rs = none ↔ successCount rs = 0) ∧
    (0 < successCount rs →
      accuracy rs = some ((matchAmongDone rs : ℚ) / (successCount rs : ℚ) * 100)) := by
  have hnum : correctCount rs = matchAmongDone rs := by
    unfold correctCount matchAmongDone
    rw [List.filter_congr fun x hx => ?_]
    by_cases hcmp : x.comparison = "Đúng"
    · simp [hcmp, hinv x hx hcmp]
    · simp [hcmp]
  constructor
  · by_cases h : 0 < successCount rs
    · simp [accuracy, h]
      omega
    · simp [accuracy, h]
      omega
  · intro h
    rw [show accuracy rs = some ((correctCount rs : ℚ) / (successCount rs : ℚ) * 100)
      from by simp [accuracy, h], hnum]

/-- Three success results with 2 Match and 1 Mismatch. -/
def accListSuccess : List PResult :=
  [statResult "success" "Đúng", statResult "success" "Đúng",
   statResult "success" "Cần hiệu đính"]

/-- Witness for the amended C8 at a concrete all-success list. -/
theorem accuracy_characterization_witness :
    accuracy accListSuccess =
      some ((matchAmongDone accListSuccess : ℚ) / (successCount accListSuccess : ℚ) * 100) :=
  (accuracy_characterization accListSuccess (by decide)).2 (by decide)

end CompareGCN
